import Mathlib

/-!
# BCUT - Barebones C Unit Tests (`bcut.h`)

A shallow embedding of the header's two executable pieces, the `BCUT_ASSERT`
macro and the `bcut_suite_run` function, followed by the properties proved
about them.

Conventions of the embedding.

* A C string is a `List Char` (the characters before the terminator).
* `BCUT_BUFFER_SIZE` is a build-time constant (`#ifndef` guarded, 128 unless the
  embedding build defines it): the definitions take it as their first argument
  and `BCUT_BUFFER_SIZE_DEFAULT` is the header's own value.
* A call to a printf-family function returns `none` where the format string
  asks for more than the call supplies (the C standard leaves that undefined);
  `none` then propagates: the behaviour of the whole run is undefined.
* The program state outside `(bcut_error, bcut_pass)` that asserted
  expressions read and write is an arbitrary type `σ`.
-/

namespace BCUT

/-! ## The printf family, as far as the header uses it -/

/-- One variadic argument of a printf-family call. -/
inductive Arg where
  | str (s : List Char)
  | int (i : Int)

/-- Output of the `%d` conversion. -/
def decimal (i : Int) : List Char :=
  if i < 0 then '-' :: Nat.toDigits 10 i.natAbs else Nat.toDigits 10 i.natAbs

/-- Expansion of a format string against its arguments.  Ordinary characters
are copied, `%%` writes one `%`, `%s` and `%d` consume the next argument, which
must be a string, respectively an int.  Everything else that starts with `%`
(a directive without a matching argument, or one the header never uses) has no
defined result here.  Arguments left over are ignored, as in C. -/
def format : List Char → List Arg → Option (List Char)
  | [], _ => some []
  | [c], _ => if c = '%' then none else some [c]
  | c :: d :: fmt, args =>
    if c = '%' then
      if d = '%' then (format fmt args).map (fun out => '%' :: out)
      else if d = 's' then
        match args with
        | Arg.str s :: rest => (format fmt rest).map (fun out => s ++ out)
        | _ => none
      else if d = 'd' then
        match args with
        | Arg.int i :: rest => (format fmt rest).map (fun out => decimal i ++ out)
        | _ => none
      else none
    else (format (d :: fmt) args).map (fun out => c :: out)

/-- The call `snprintf(buf, size, fmt, ...)`: the string held by `buf`
afterwards.  At most `size - 1` characters of the expansion are stored before
the terminator; with `size = 0` nothing is written. -/
def snprintf (buf : List Char) (size : Nat) (fmt : List Char) (args : List Arg) :
    Option (List Char) :=
  (format fmt args).map (fun out => if size = 0 then buf else out.take (size - 1))

/-- The call `printf(fmt, ...)`: the characters it sends to standard output. -/
def printf (fmt : List Char) (args : List Arg) : Option (List Char) :=
  format fmt args

/-! ## Test units -/

/-- The header's default for `BCUT_BUFFER_SIZE`. -/
def BCUT_BUFFER_SIZE_DEFAULT : Nat := 128

/-- What a test function sees: its two parameters and the rest of the program
state. -/
structure Machine (σ : Type) where
  bcut_error : List Char
  bcut_pass : Bool
  env : σ
  deriving DecidableEq

/-- The type `bcut_test_fn`, `void (*)(char*, bool*)`.  `none`: the call has no
defined outcome. -/
abbrev bcut_test_fn (σ : Type) := Machine σ → Option (Machine σ)

/-- One use `BCUT_ASSERT(expr)` of the macro: `func` is `__func__` at the call
site, `line` is `__LINE__`, `text` is the stringification `#expr`, and `expr`
evaluates the expression in the current program state, giving its value and the
state it leaves. -/
structure Assertion (σ : Type) where
  func : List Char
  line : Nat
  text : List Char
  expr : σ → Int × σ

/-- The format string of the macro, `"%s: l%d: "#expr`. -/
def assertFormat {σ : Type} (a : Assertion σ) : List Char :=
  "%s: l%d: ".toList ++ a.text

/-- The macro `BCUT_ASSERT(expr)`. -/
def BCUT_ASSERT {σ : Type} (BCUT_BUFFER_SIZE : Nat) (a : Assertion σ) (m : Machine σ) :
    Option (Machine σ) :=
  if m.bcut_pass then
    let r := a.expr m.env
    let bcut_pass := decide (r.1 ≠ 0)
    if !bcut_pass then
      (snprintf m.bcut_error BCUT_BUFFER_SIZE (assertFormat a)
          [Arg.str a.func, Arg.int (Int.ofNat a.line)]).map
        (fun bcut_error => { bcut_error := bcut_error, bcut_pass := bcut_pass, env := r.2 })
    else some { bcut_error := m.bcut_error, bcut_pass := bcut_pass, env := r.2 }
  else some m

/-- A test function whose body is a sequence of `BCUT_ASSERT` statements. -/
def BCUT_TEST {σ : Type} (BCUT_BUFFER_SIZE : Nat) : List (Assertion σ) → bcut_test_fn σ
  | [], m => some m
  | a :: body, m => (BCUT_ASSERT BCUT_BUFFER_SIZE a m).bind (BCUT_TEST BCUT_BUFFER_SIZE body)

/-! ## The suite runner -/

/-- State of `bcut_suite_run` while it runs: its locals `error_buffer` and
`pass`, the program state, and two records of what it did: `stdout`, the text
of each `printf` call in order, and `calls`, the position in the argument list
of each test it called together with the machine it entered that test with. -/
structure Run (σ : Type) where
  error_buffer : List Char
  pass : Bool
  env : σ
  stdout : List (List Char)
  calls : List (Nat × Machine σ)
  deriving DecidableEq

/-- The `for` loop of `bcut_suite_run`, with `k = n - i` iterations left before
`i < n` fails.  `va_arg` on an exhausted argument list has no defined
result. -/
def suite_loop {σ : Type} : Nat → Nat → List (bcut_test_fn σ) → Run σ → Option (Run σ)
  | 0, _, _, r => some r
  | k + 1, i, args, r =>
    if r.pass then
      match args with
      | [] => none
      | unit_test :: rest =>
        let entry : Machine σ := ⟨r.error_buffer, r.pass, r.env⟩
        match unit_test entry with
        | none => none
        | some m =>
          let r1 : Run σ :=
            { error_buffer := m.bcut_error, pass := m.bcut_pass, env := m.env,
              stdout := r.stdout, calls := r.calls ++ [(i, entry)] }
          if !r1.pass then
            match printf "\n\tFAIL: %s\n".toList [Arg.str r1.error_buffer] with
            | none => none
            | some out => suite_loop k (i + 1) rest { r1 with stdout := r1.stdout ++ [out] }
          else suite_loop k (i + 1) rest r1
    else some r

/-- The function `bcut_suite_run(name, n, ...)`.  `garbage` is the string the
uninitialised array `error_buffer` happens to hold, `args` the variadic
arguments, `env` the program state at the call. -/
def bcut_suite_run {σ : Type} (garbage : List Char)
    (name : List Char) (n : Nat) (args : List (bcut_test_fn σ)) (env : σ) : Option (Run σ) :=
  match printf "Testing %s: ".toList [Arg.str name] with
  | none => none
  | some header =>
    match suite_loop n 0 args
        { error_buffer := garbage, pass := true, env := env, stdout := [header], calls := [] } with
    | none => none
    | some r =>
      if r.pass then
        match printf "PASSED!\n".toList [] with
        | none => none
        | some out => some { r with stdout := r.stdout ++ [out] }
      else some r

/-- Everything a run wrote to standard output. -/
def Run.output {σ : Type} (r : Run σ) : List Char := r.stdout.flatten

/-! ## Reading a test body

The first two functions below evaluate the asserted expressions of a body one
after the other, with no flag and no buffer; the third calls test functions in
turn as long as they pass.  They are what the statements about `BCUT_TEST` and
`bcut_suite_run` are measured against. -/

/-- Every expression of the body yields a non-zero value when the expressions
are evaluated in order from the state `s`. -/
def allHold {σ : Type} : List (Assertion σ) → σ → Bool
  | [], _ => true
  | a :: body, s => decide ((a.expr s).1 ≠ 0) && allHold body (a.expr s).2

/-- The program state after evaluating every expression of the body in order
from the state `s`. -/
def envAfter {σ : Type} : List (Assertion σ) → σ → σ
  | [], s => s
  | a :: body, s => envAfter body (a.expr s).2

/-- Each test function of the list, called in turn from the machine `m`,
returns with the pass flag true; the value is the machine the last one
leaves. -/
def passAll {σ : Type} : List (bcut_test_fn σ) → Machine σ → Option (Machine σ)
  | [], m => some m
  | t :: ts, m =>
    match t m with
    | none => none
    | some m1 => if m1.bcut_pass then passAll ts m1 else none

/-! ## Concrete test units

The program state of the examples is the list of the expression texts
evaluated so far, so that an evaluation is visible in the state. -/

/-- The program state of the examples. -/
abbrev EvalLog := List (List Char)

/-- The use `BCUT_ASSERT(5 > 3)` at line 35 of a test `greater_test`. -/
def assert_5_gt_3 : Assertion EvalLog :=
  { func := "greater_test".toList, line := 35, text := "5 > 3".toList,
    expr := fun s => (1, s ++ ["5 > 3".toList]) }

/-- The use `BCUT_ASSERT(5 < 3)` at line 10 of a test `bad_test`. -/
def assert_5_lt_3 : Assertion EvalLog :=
  { func := "bad_test".toList, line := 10, text := "5 < 3".toList,
    expr := fun s => (0, s ++ ["5 < 3".toList]) }

/-- The use `BCUT_ASSERT(1 == 2)` at line 20 of a test `other_test`. -/
def assert_1_eq_2 : Assertion EvalLog :=
  { func := "other_test".toList, line := 20, text := "1 == 2".toList,
    expr := fun s => (0, s ++ ["1 == 2".toList]) }

/-- A failing assertion at line 7 of a test `long_test` whose expression is an
identifier of 130 characters. -/
def assert_long : Assertion EvalLog :=
  { func := "long_test".toList, line := 7, text := List.replicate 130 'x',
    expr := fun s => (0, s ++ [List.replicate 130 'x']) }

/-- The use `BCUT_ASSERT(strcmp(s, "%%") == 0)` at line 12 of a test
`percent_test`, failing. -/
def assert_strcmp : Assertion EvalLog :=
  { func := "percent_test".toList, line := 12, text := "strcmp(s, \"%%\") == 0".toList,
    expr := fun s => (0, s) }

/-- The use `BCUT_ASSERT(x % d == 0)` at line 13 of a test `percent_test`,
failing. -/
def assert_modulo : Assertion EvalLog :=
  { func := "percent_test".toList, line := 13, text := "x % d == 0".toList,
    expr := fun s => (0, s) }

/-- The use `BCUT_ASSERT(flags & 0x100)` at line 14 of a test `flag_test`, with
the bit set: the expression has the value 256. -/
def assert_256 : Assertion EvalLog :=
  { func := "flag_test".toList, line := 14, text := "flags & 0x100".toList,
    expr := fun s => (256, s ++ ["flags & 0x100".toList]) }


/-! ## Lemmas on formatting -/

theorem format_cons_ordinary (c : Char) (s : List Char) (args : List Arg) (hc : c ≠ '%') :
    format (c :: s) args = (format s args).map (fun out => c :: out) := by
  cases s with
  | nil => simp [format, hc]
  | cons d t => simp [format, hc]

theorem format_no_percent (s : List Char) (args : List Arg) (hs : '%' ∉ s) :
    format s args = some s := by
  induction s with
  | nil => simp [format]
  | cons c t ih =>
    have hc : c ≠ '%' := fun h => hs (by simp [h])
    have ht : '%' ∉ t := fun h => hs (by simp [h])
    rw [format_cons_ordinary c t args hc, ih ht]
    rfl

theorem format_assert (func text : List Char) (line : Nat) :
    format ("%s: l%d: ".toList ++ text) [Arg.str func, Arg.int (Int.ofNat line)]
      = (format text []).map
          (fun out => func ++ ": l".toList ++ (Nat.repr line).toList ++ ": ".toList ++ out) := by
  have h1 : format ("%s: l%d: ".toList ++ text) [Arg.str func, Arg.int (Int.ofNat line)]
      = (format (':' :: ' ' :: 'l' :: '%' :: 'd' :: ':' :: ' ' :: text)
          [Arg.int (Int.ofNat line)]).map (fun out => func ++ out) := rfl
  rw [h1, format_cons_ordinary _ _ _ (by decide), format_cons_ordinary _ _ _ (by decide),
    format_cons_ordinary _ _ _ (by decide)]
  have h2 : format ('%' :: 'd' :: ':' :: ' ' :: text) [Arg.int (Int.ofNat line)]
      = (format (':' :: ' ' :: text) []).map (fun out => decimal (Int.ofNat line) ++ out) := rfl
  rw [h2, format_cons_ordinary _ _ _ (by decide), format_cons_ordinary _ _ _ (by decide)]
  have h3 : decimal (Int.ofNat line) = (Nat.repr line).toList := by
    simp [decimal, Nat.repr, List.asString]
  rw [h3]
  cases format text [] <;> simp

/-! ## Lemmas on one assertion and on a test body -/

theorem snprintf_assert {σ : Type} (size : Nat) (a : Assertion σ) (buf : List Char)
    (hp : '%' ∉ a.text) :
    snprintf buf size (assertFormat a) [Arg.str a.func, Arg.int (Int.ofNat a.line)]
      = some (if size = 0 then buf else
          (a.func ++ ": l".toList ++ (Nat.repr a.line).toList ++ ": ".toList ++ a.text).take
            (size - 1)) := by
  simp only [snprintf, assertFormat]
  rw [format_assert, format_no_percent a.text [] hp]
  rfl

theorem BCUT_ASSERT_of_failed {σ : Type} (size : Nat) (a : Assertion σ) (m : Machine σ)
    (h : m.bcut_pass = false) : BCUT_ASSERT size a m = some m := by
  simp [BCUT_ASSERT, h]

theorem BCUT_ASSERT_of_nonzero {σ : Type} (size : Nat) (a : Assertion σ) (m : Machine σ)
    (h : m.bcut_pass = true) (hv : (a.expr m.env).1 ≠ 0) :
    BCUT_ASSERT size a m = some ⟨m.bcut_error, true, (a.expr m.env).2⟩ := by
  simp [BCUT_ASSERT, h, hv]

theorem BCUT_ASSERT_of_zero {σ : Type} (size : Nat) (a : Assertion σ) (m : Machine σ)
    (h : m.bcut_pass = true) (hv : (a.expr m.env).1 = 0) :
    BCUT_ASSERT size a m
      = (snprintf m.bcut_error size (assertFormat a)
          [Arg.str a.func, Arg.int (Int.ofNat a.line)]).map
        (fun msg => ⟨msg, false, (a.expr m.env).2⟩) := by
  simp [BCUT_ASSERT, h, hv]

theorem BCUT_TEST_of_failed {σ : Type} (size : Nat) (body : List (Assertion σ))
    (m : Machine σ) (h : m.bcut_pass = false) : BCUT_TEST size body m = some m := by
  induction body with
  | nil => rfl
  | cons a rest ih => simp [BCUT_TEST, BCUT_ASSERT_of_failed size a m h, ih]

theorem BCUT_TEST_of_allHold {σ : Type} (size : Nat) (body : List (Assertion σ))
    (buf : List Char) (s : σ) (h : allHold body s = true) :
    BCUT_TEST size body ⟨buf, true, s⟩ = some ⟨buf, true, envAfter body s⟩ := by
  induction body generalizing s with
  | nil => rfl
  | cons a rest ih =>
    simp only [allHold, Bool.and_eq_true, decide_eq_true_eq] at h
    simp only [BCUT_TEST, envAfter]
    rw [BCUT_ASSERT_of_nonzero size a ⟨buf, true, s⟩ rfl h.1]
    exact ih _ h.2

theorem BCUT_TEST_of_first_zero {σ : Type} (size : Nat) (pre : List (Assertion σ))
    (a : Assertion σ) (post : List (Assertion σ)) (buf : List Char) (s : σ)
    (hpre : allHold pre s = true) (hv : (a.expr (envAfter pre s)).1 = 0) :
    BCUT_TEST size (pre ++ a :: post) ⟨buf, true, s⟩
      = (snprintf buf size (assertFormat a) [Arg.str a.func, Arg.int (Int.ofNat a.line)]).map
          (fun msg => ⟨msg, false, (a.expr (envAfter pre s)).2⟩) := by
  induction pre generalizing s with
  | nil =>
    simp only [List.nil_append, BCUT_TEST]
    rw [BCUT_ASSERT_of_zero size a ⟨buf, true, s⟩ rfl hv]
    cases snprintf buf size (assertFormat a) [Arg.str a.func, Arg.int (Int.ofNat a.line)] with
    | none => rfl
    | some msg => exact BCUT_TEST_of_failed size post _ rfl
  | cons b rest ih =>
    simp only [allHold, Bool.and_eq_true, decide_eq_true_eq] at hpre
    simp only [List.cons_append, BCUT_TEST]
    rw [BCUT_ASSERT_of_nonzero size b ⟨buf, true, s⟩ rfl hpre.1]
    exact ih _ hpre.2 hv

theorem exists_first_zero {σ : Type} (body : List (Assertion σ)) (s : σ)
    (h : allHold body s = false) :
    ∃ pre a post, body = pre ++ a :: post ∧ allHold pre s = true ∧
      (a.expr (envAfter pre s)).1 = 0 := by
  induction body generalizing s with
  | nil => simp [allHold] at h
  | cons b rest ih =>
    by_cases hb : (b.expr s).1 = 0
    · exact ⟨[], b, rest, rfl, rfl, hb⟩
    · have hrest : allHold rest (b.expr s).2 = false := by
        simpa [allHold, hb] using h
      obtain ⟨pre, a, post, h1, h2, h3⟩ := ih _ hrest
      exact ⟨b :: pre, a, post, by simp [h1], by simp [allHold, hb, h2], h3⟩

/-! ## Lemmas on the runner -/

theorem printf_header (name : List Char) :
    printf "Testing %s: ".toList [Arg.str name] = some ("Testing ".toList ++ name ++ ": ".toList) :=
  rfl

theorem printf_fail (buf : List Char) :
    printf "\n\tFAIL: %s\n".toList [Arg.str buf]
      = some ("\n\tFAIL: ".toList ++ buf ++ "\n".toList) :=
  rfl

theorem printf_passed : printf "PASSED!\n".toList [] = some "PASSED!\n".toList :=
  rfl

theorem suite_loop_of_failed {σ : Type} (k i : Nat) (args : List (bcut_test_fn σ)) (r : Run σ)
    (h : r.pass = false) : suite_loop k i args r = some r := by
  cases k with
  | zero => rfl
  | succ k => simp [suite_loop, h]

theorem suite_loop_step_pass {σ : Type} (k i : Nat) (t : bcut_test_fn σ)
    (rest : List (bcut_test_fn σ)) (r : Run σ) (m : Machine σ) (h : r.pass = true)
    (ht : t ⟨r.error_buffer, true, r.env⟩ = some m) (hm : m.bcut_pass = true) :
    suite_loop (k + 1) i (t :: rest) r
      = suite_loop k (i + 1) rest
          { error_buffer := m.bcut_error, pass := true, env := m.env, stdout := r.stdout,
            calls := r.calls ++ [(i, ⟨r.error_buffer, true, r.env⟩)] } := by
  simp [suite_loop, h, ht, hm]

theorem suite_loop_step_fail {σ : Type} (k i : Nat) (t : bcut_test_fn σ)
    (rest : List (bcut_test_fn σ)) (r : Run σ) (m : Machine σ) (h : r.pass = true)
    (ht : t ⟨r.error_buffer, true, r.env⟩ = some m) (hm : m.bcut_pass = false) :
    suite_loop (k + 1) i (t :: rest) r
      = some
          { error_buffer := m.bcut_error, pass := false, env := m.env,
            stdout := r.stdout ++ ["\n\tFAIL: ".toList ++ m.bcut_error ++ "\n".toList],
            calls := r.calls ++ [(i, ⟨r.error_buffer, true, r.env⟩)] } := by
  simp only [suite_loop, h, ht, hm, printf_fail]
  simp [suite_loop_of_failed]

theorem passAll_pass {σ : Type} (ts : List (bcut_test_fn σ)) (m m1 : Machine σ)
    (h : passAll ts m = some m1) (hm : m.bcut_pass = true) : m1.bcut_pass = true := by
  induction ts generalizing m with
  | nil =>
    simp only [passAll, Option.some.injEq] at h
    rw [← h]; exact hm
  | cons t rest ih =>
    simp only [passAll] at h
    cases ht : t m with
    | none => simp [ht] at h
    | some m2 =>
      simp only [ht] at h
      by_cases hp : m2.bcut_pass = true
      · simp only [hp, if_true] at h
        exact ih m2 h hp
      · simp [hp] at h

theorem suite_loop_passAll {σ : Type} (pre : List (bcut_test_fn σ)) (k i : Nat)
    (rest : List (bcut_test_fn σ)) (r : Run σ) (m1 : Machine σ) (h : r.pass = true)
    (hpre : passAll pre ⟨r.error_buffer, true, r.env⟩ = some m1) :
    ∃ cs : List (Nat × Machine σ),
      cs.map Prod.fst = List.range' i pre.length ∧ (∀ c ∈ cs, c.2.bcut_pass = true) ∧
      suite_loop (pre.length + k) i (pre ++ rest) r
        = suite_loop k (i + pre.length) rest
            { error_buffer := m1.bcut_error, pass := true, env := m1.env, stdout := r.stdout,
              calls := r.calls ++ cs } := by
  induction pre generalizing i r with
  | nil =>
    simp only [passAll, Option.some.injEq] at hpre
    refine ⟨[], rfl, by simp, ?_⟩
    subst hpre
    cases r
    simp only at h
    subst h
    simp
  | cons t ts ih =>
    simp only [passAll] at hpre
    cases ht : t ⟨r.error_buffer, true, r.env⟩ with
    | none => simp [ht] at hpre
    | some m2 =>
      simp only [ht] at hpre
      by_cases hp : m2.bcut_pass = true
      · simp only [hp, if_true] at hpre
        have hm2 : (⟨m2.bcut_error, true, m2.env⟩ : Machine σ) = m2 := by
          cases m2; simp only at hp; subst hp; rfl
        obtain ⟨cs, hcs1, hcs2, hcs3⟩ := ih (i + 1)
          { error_buffer := m2.bcut_error, pass := true, env := m2.env, stdout := r.stdout,
            calls := r.calls ++ [(i, ⟨r.error_buffer, true, r.env⟩)] } rfl
          (by simpa only [hm2] using hpre)
        refine ⟨(i, ⟨r.error_buffer, true, r.env⟩) :: cs, ?_, ?_, ?_⟩
        · simp [hcs1, List.range'_succ]
        · intro c hc
          rcases List.mem_cons.mp hc with rfl | hc
          · rfl
          · exact hcs2 c hc
        · have hlen : (t :: ts).length + k = (ts.length + k) + 1 := by
            simp only [List.length_cons]; omega
          rw [hlen, List.cons_append, suite_loop_step_pass _ i t (ts ++ rest) r m2 h ht hp, hcs3]
          simp only [List.length_cons, List.append_assoc, List.singleton_append]
          congr 1
          omega
      · simp [hp] at hpre

theorem bcut_suite_run_of_passAll {σ : Type} (garbage name : List Char)
    (tests : List (bcut_test_fn σ)) (env : σ) (m1 : Machine σ)
    (h : passAll tests ⟨garbage, true, env⟩ = some m1) :
    ∃ cs : List (Nat × Machine σ),
      cs.map Prod.fst = List.range tests.length ∧ (∀ c ∈ cs, c.2.bcut_pass = true) ∧
      bcut_suite_run garbage name tests.length tests env
        = some
            { error_buffer := m1.bcut_error, pass := true, env := m1.env,
              stdout := ["Testing ".toList ++ name ++ ": ".toList, "PASSED!\n".toList],
              calls := cs } := by
  obtain ⟨cs, h1, h2, h3⟩ := suite_loop_passAll tests 0 0 []
    { error_buffer := garbage, pass := true, env := env,
      stdout := ["Testing ".toList ++ name ++ ": ".toList], calls := [] } m1 rfl h
  refine ⟨cs, ?_, h2, ?_⟩
  · rw [h1, List.range_eq_range']
  · simp only [Nat.add_zero, List.append_nil, List.nil_append] at h3
    simp only [bcut_suite_run, printf_header, h3, suite_loop, printf_passed]
    simp

theorem suite_loop_passAll_entries {σ : Type} (pre : List (bcut_test_fn σ)) (k i : Nat)
    (rest : List (bcut_test_fn σ)) (r : Run σ) (m1 : Machine σ) (h : r.pass = true)
    (hpre : passAll pre ⟨r.error_buffer, true, r.env⟩ = some m1) :
    ∃ cs : List (Nat × Machine σ),
      cs.map Prod.fst = List.range' i pre.length ∧
      (∀ j mj, j < pre.length → passAll (pre.take j) ⟨r.error_buffer, true, r.env⟩ = some mj →
        cs[j]? = some (i + j, mj)) ∧
      suite_loop (pre.length + k) i (pre ++ rest) r
        = suite_loop k (i + pre.length) rest
            { error_buffer := m1.bcut_error, pass := true, env := m1.env, stdout := r.stdout,
              calls := r.calls ++ cs } := by
  induction pre generalizing i r with
  | nil =>
    simp only [passAll, Option.some.injEq] at hpre
    refine ⟨[], rfl, by simp, ?_⟩
    subst hpre
    cases r
    simp only at h
    subst h
    simp
  | cons t ts ih =>
    simp only [passAll] at hpre
    cases ht : t ⟨r.error_buffer, true, r.env⟩ with
    | none => simp [ht] at hpre
    | some m2 =>
      simp only [ht] at hpre
      by_cases hp : m2.bcut_pass = true
      · simp only [hp, if_true] at hpre
        have hm2 : (⟨m2.bcut_error, true, m2.env⟩ : Machine σ) = m2 := by
          cases m2; simp only at hp; subst hp; rfl
        obtain ⟨cs, hcs1, hcs2, hcs3⟩ := ih (i + 1)
          { error_buffer := m2.bcut_error, pass := true, env := m2.env, stdout := r.stdout,
            calls := r.calls ++ [(i, ⟨r.error_buffer, true, r.env⟩)] } rfl
          (by simpa only [hm2] using hpre)
        refine ⟨(i, ⟨r.error_buffer, true, r.env⟩) :: cs, ?_, ?_, ?_⟩
        · simp [hcs1, List.range'_succ]
        · intro j mj hj hmj
          cases j with
          | zero =>
            simp only [List.take_zero, passAll, Option.some.injEq] at hmj
            rw [← hmj]
            simp
          | succ j =>
            simp only [List.take_succ_cons, passAll, ht, hp, if_true] at hmj
            have hj2 : j < ts.length := by
              simp only [List.length_cons] at hj; omega
            have h3 := hcs2 j mj hj2 (by simpa only [hm2] using hmj)
            simp only [List.getElem?_cons_succ, h3]
            congr 2
            omega
        · have hlen : (t :: ts).length + k = (ts.length + k) + 1 := by
            simp only [List.length_cons]; omega
          rw [hlen, List.cons_append, suite_loop_step_pass _ i t (ts ++ rest) r m2 h ht hp, hcs3]
          simp only [List.length_cons, List.append_assoc, List.singleton_append]
          congr 1
          omega
      · simp [hp] at hpre

theorem bcut_suite_run_of_passAll_entries {σ : Type} (garbage name : List Char)
    (tests : List (bcut_test_fn σ)) (env : σ) (m1 : Machine σ)
    (h : passAll tests ⟨garbage, true, env⟩ = some m1) :
    ∃ cs : List (Nat × Machine σ),
      cs.map Prod.fst = List.range tests.length ∧
      (∀ j mj, j < tests.length → passAll (tests.take j) ⟨garbage, true, env⟩ = some mj →
        cs[j]? = some (j, mj)) ∧
      bcut_suite_run garbage name tests.length tests env
        = some
            { error_buffer := m1.bcut_error, pass := true, env := m1.env,
              stdout := ["Testing ".toList ++ name ++ ": ".toList, "PASSED!\n".toList],
              calls := cs } := by
  obtain ⟨cs, h1, h2, h3⟩ := suite_loop_passAll_entries tests 0 0 []
    { error_buffer := garbage, pass := true, env := env,
      stdout := ["Testing ".toList ++ name ++ ": ".toList], calls := [] } m1 rfl h
  refine ⟨cs, ?_, ?_, ?_⟩
  · rw [h1, List.range_eq_range']
  · intro j mj hj hmj
    have := h2 j mj hj hmj
    simpa using this
  · simp only [Nat.add_zero, List.append_nil, List.nil_append] at h3
    simp only [bcut_suite_run, printf_header, h3, suite_loop, printf_passed]
    simp

theorem bcut_suite_run_of_first_failure {σ : Type} (garbage name : List Char)
    (pre : List (bcut_test_fn σ)) (t : bcut_test_fn σ) (post : List (bcut_test_fn σ)) (env : σ)
    (m1 m2 : Machine σ) (hpre : passAll pre ⟨garbage, true, env⟩ = some m1)
    (ht : t m1 = some m2) (hfail : m2.bcut_pass = false) :
    ∃ cs : List (Nat × Machine σ),
      cs.map Prod.fst = List.range (pre.length + 1) ∧ (∀ c ∈ cs, c.2.bcut_pass = true) ∧
      bcut_suite_run garbage name (pre ++ t :: post).length (pre ++ t :: post) env
        = some
            { error_buffer := m2.bcut_error, pass := false, env := m2.env,
              stdout := ["Testing ".toList ++ name ++ ": ".toList,
                "\n\tFAIL: ".toList ++ m2.bcut_error ++ "\n".toList],
              calls := cs } := by
  obtain ⟨cs, h1, h2, h3⟩ := suite_loop_passAll pre (post.length + 1) 0 (t :: post)
    { error_buffer := garbage, pass := true, env := env,
      stdout := ["Testing ".toList ++ name ++ ": ".toList], calls := [] } m1 rfl hpre
  have hm1 : (⟨m1.bcut_error, true, m1.env⟩ : Machine σ) = m1 := by
    have hp := passAll_pass pre _ m1 hpre rfl
    cases m1; simp only at hp; subst hp; rfl
  refine ⟨cs ++ [(pre.length, m1)], ?_, ?_, ?_⟩
  · simp [h1, List.range_succ, List.range_eq_range']
  · intro c hc
    rcases List.mem_append.mp hc with hc | hc
    · exact h2 c hc
    · simp only [List.mem_singleton] at hc
      subst hc
      exact passAll_pass pre _ m1 hpre rfl
  · have hlen : (pre ++ t :: post).length = pre.length + (post.length + 1) := by simp
    simp only [bcut_suite_run, printf_header, hlen, h3]
    rw [suite_loop_step_fail _ _ t post _ m2 rfl (by simpa only [hm1] using ht) hfail]
    simp [hm1]

theorem passAll_or_first_failure {σ : Type} (ts : List (bcut_test_fn σ))
    (htotal : ∀ t ∈ ts, ∀ m, ∃ m1, t m = some m1) (m : Machine σ) :
    (∃ m1, passAll ts m = some m1) ∨
      ∃ pre t post m1 m2, ts = pre ++ t :: post ∧ passAll pre m = some m1 ∧
        t m1 = some m2 ∧ m2.bcut_pass = false := by
  induction ts generalizing m with
  | nil => exact Or.inl ⟨m, rfl⟩
  | cons t rest ih =>
    obtain ⟨m2, ht⟩ := htotal t (by simp) m
    by_cases hp : m2.bcut_pass = true
    · have hrest : ∀ u ∈ rest, ∀ m, ∃ m1, u m = some m1 :=
        fun u hu => htotal u (List.mem_cons_of_mem _ hu)
      rcases ih hrest m2 with ⟨m1, h1⟩ | ⟨pre, u, post, m1, m3, h1, h2, h3, h4⟩
      · exact Or.inl ⟨m1, by simp [passAll, ht, hp, h1]⟩
      · exact Or.inr ⟨t :: pre, u, post, m1, m3, by simp [h1],
          by simp [passAll, ht, hp, h2], h3, h4⟩
    · exact Or.inr ⟨[], t, rest, m, m2, rfl, rfl, ht, by simpa using hp⟩


/-! ## Properties of `BCUT_ASSERT` and of a test body -/

/-- C4. Only the first failure is reported.  A body run from pass flag true:
the flag is true at the end exactly when every asserted expression, evaluated
in order, was true, and then the buffer is untouched; otherwise the body splits
at the first assertion `a` whose expression was false, the run ends with the
flag false and the buffer holding what the `snprintf` of `a` wrote, and the
program state is the one left by evaluating the expressions up to and including
that of `a`: no later expression is evaluated.  The body returns whenever no
expression text in it holds a `%`. -/
theorem BCUT_TEST_first_failure_only {σ : Type} (size : Nat) (body : List (Assertion σ))
    (buf : List Char) (s : σ) :
    (∀ m1, BCUT_TEST size body ⟨buf, true, s⟩ = some m1 →
        (m1.bcut_pass = true ↔ allHold body s = true)) ∧
    (allHold body s = true →
        BCUT_TEST size body ⟨buf, true, s⟩ = some ⟨buf, true, envAfter body s⟩) ∧
    (allHold body s = false →
        ∃ pre a post, body = pre ++ a :: post ∧ allHold pre s = true ∧
          (a.expr (envAfter pre s)).1 = 0 ∧
          BCUT_TEST size body ⟨buf, true, s⟩
            = (snprintf buf size (assertFormat a)
                [Arg.str a.func, Arg.int (Int.ofNat a.line)]).map
              (fun msg => ⟨msg, false, (a.expr (envAfter pre s)).2⟩)) ∧
    ((∀ a ∈ body, '%' ∉ a.text) → ∃ m1, BCUT_TEST size body ⟨buf, true, s⟩ = some m1) := by
  have hfail : allHold body s = false →
      ∃ pre a post, body = pre ++ a :: post ∧ allHold pre s = true ∧
        (a.expr (envAfter pre s)).1 = 0 ∧
        BCUT_TEST size body ⟨buf, true, s⟩
          = (snprintf buf size (assertFormat a)
              [Arg.str a.func, Arg.int (Int.ofNat a.line)]).map
            (fun msg => ⟨msg, false, (a.expr (envAfter pre s)).2⟩) := by
    intro h
    obtain ⟨pre, a, post, h1, h2, h3⟩ := exists_first_zero body s h
    refine ⟨pre, a, post, h1, h2, h3, ?_⟩
    rw [h1]
    exact BCUT_TEST_of_first_zero size pre a post buf s h2 h3
  refine ⟨?_, BCUT_TEST_of_allHold size body buf s, hfail, ?_⟩
  case refine_2 =>
    intro hpct
    cases hall : allHold body s with
    | true => exact ⟨_, BCUT_TEST_of_allHold size body buf s hall⟩
    | false =>
      obtain ⟨pre, a, post, h1, _, _, h4⟩ := hfail hall
      have ha : a ∈ body := by rw [h1]; simp
      rw [h4, snprintf_assert size a buf (hpct a ha)]
      exact ⟨_, rfl⟩
  intro m1 hm1
  cases hall : allHold body s with
  | true =>
    rw [BCUT_TEST_of_allHold size body buf s hall] at hm1
    simp only [Option.some.injEq] at hm1
    simp [← hm1]
  | false =>
    obtain ⟨pre, a, post, _, _, _, h4⟩ := hfail hall
    rw [h4] at hm1
    cases hmsg : snprintf buf size (assertFormat a)
        [Arg.str a.func, Arg.int (Int.ofNat a.line)] with
    | none =>
      rw [hmsg] at hm1
      simp at hm1
    | some msg =>
      rw [hmsg] at hm1
      simp only [Option.map_some', Option.some.injEq] at hm1
      simp [← hm1]

/-- Instance of C4: the body `BCUT_ASSERT(5 > 3); BCUT_ASSERT(5 < 3);
BCUT_ASSERT(1 == 2);` ends with the flag false, the message of the second
assertion in the buffer, and the third expression never evaluated. -/
theorem BCUT_TEST_first_failure_only_witness :
    allHold [assert_5_gt_3, assert_5_lt_3, assert_1_eq_2] [] = false ∧
    BCUT_TEST BCUT_BUFFER_SIZE_DEFAULT [assert_5_gt_3, assert_5_lt_3, assert_1_eq_2]
        ⟨"stale".toList, true, []⟩
      = some ⟨"bad_test: l10: 5 < 3".toList, false, ["5 > 3".toList, "5 < 3".toList]⟩ ∧
    ((false = true) ↔ allHold [assert_5_gt_3, assert_5_lt_3, assert_1_eq_2] [] = true) :=
  ⟨by decide, by decide,
    (BCUT_TEST_first_failure_only BCUT_BUFFER_SIZE_DEFAULT
      [assert_5_gt_3, assert_5_lt_3, assert_1_eq_2] "stale".toList []).1
      ⟨"bad_test: l10: 5 < 3".toList, false, ["5 > 3".toList, "5 < 3".toList]⟩ (by decide)⟩

/-- C5. Idempotence of the pass flag.  An assertion executed with the flag
already false returns the machine it was given: flag, buffer and program state
are unchanged (the expression is not even evaluated); hence so does every
sequence of further assertions. -/
theorem BCUT_ASSERT_idempotent_once_failed {σ : Type} (size : Nat) (a : Assertion σ)
    (m : Machine σ) (h : m.bcut_pass = false) :
    BCUT_ASSERT size a m = some m ∧ ∀ body, BCUT_TEST size body m = some m :=
  ⟨BCUT_ASSERT_of_failed size a m h, fun body => BCUT_TEST_of_failed size body m h⟩

/-- Instance of C5: after a first failure recorded as `bad_test: l10: 5 < 3`, a
passing and a failing assertion both leave the machine as it is. -/
theorem BCUT_ASSERT_idempotent_once_failed_witness :
    BCUT_ASSERT BCUT_BUFFER_SIZE_DEFAULT assert_1_eq_2
        ⟨"bad_test: l10: 5 < 3".toList, false, ["5 < 3".toList]⟩
      = some ⟨"bad_test: l10: 5 < 3".toList, false, ["5 < 3".toList]⟩ ∧
    ∀ body, BCUT_TEST BCUT_BUFFER_SIZE_DEFAULT body
        ⟨"bad_test: l10: 5 < 3".toList, false, ["5 < 3".toList]⟩
      = some ⟨"bad_test: l10: 5 < 3".toList, false, ["5 < 3".toList]⟩ :=
  BCUT_ASSERT_idempotent_once_failed BCUT_BUFFER_SIZE_DEFAULT assert_1_eq_2
    ⟨"bad_test: l10: 5 < 3".toList, false, ["5 < 3".toList]⟩ rfl

/-- C7. A passing assertion leaves the state unchanged: executed with the pass
flag true and an expression that evaluates to a non-zero value, the assertion
returns with the flag still true and the buffer exactly as it was. -/
theorem BCUT_ASSERT_pass_keeps_state {σ : Type} (size : Nat) (a : Assertion σ)
    (m : Machine σ) (h : m.bcut_pass = true) (hv : (a.expr m.env).1 ≠ 0) :
    ∃ m1, BCUT_ASSERT size a m = some m1 ∧ m1.bcut_pass = true ∧
      m1.bcut_error = m.bcut_error :=
  ⟨_, BCUT_ASSERT_of_nonzero size a m h hv, rfl, rfl⟩

/-- Instance of C7: `BCUT_ASSERT(5 > 3)` with the flag true. -/
theorem BCUT_ASSERT_pass_keeps_state_witness :
    (assert_5_gt_3.expr []).1 ≠ 0 ∧
    ∃ m1, BCUT_ASSERT BCUT_BUFFER_SIZE_DEFAULT assert_5_gt_3 ⟨"stale".toList, true, []⟩ = some m1 ∧
      m1.bcut_pass = true ∧ m1.bcut_error = "stale".toList :=
  ⟨by decide,
    BCUT_ASSERT_pass_keeps_state BCUT_BUFFER_SIZE_DEFAULT assert_5_gt_3
      ⟨"stale".toList, true, []⟩ rfl (by decide)⟩


/-! ## The recorded message -/

/-- C10. Message format and truncation.  A failing assertion whose expression
text holds no `%`, in a build with a buffer of at least one character: with `F`
the function name, `": l"`, the decimal line number, `": "` and the expression
text, the message left in the buffer is the first `min |F| (size - 1)`
characters of `F`; it is `F` itself when `|F| < size`, and with its terminator
it always fits in `size` characters. -/
theorem BCUT_ASSERT_message_truncated {σ : Type} (size : Nat) (a : Assertion σ)
    (m : Machine σ) (F : List Char)
    (hF : F = a.func ++ ": l".toList ++ (Nat.repr a.line).toList ++ ": ".toList ++ a.text)
    (hsize : 0 < size) (hpass : m.bcut_pass = true) (hzero : (a.expr m.env).1 = 0)
    (hpct : '%' ∉ a.text) :
    ∃ m1, BCUT_ASSERT size a m = some m1 ∧ m1.bcut_pass = false ∧
      m1.bcut_error = F.take (min F.length (size - 1)) ∧ m1.bcut_error <+: F ∧
      (F.length < size → m1.bcut_error = F) ∧ m1.bcut_error.length + 1 ≤ size := by
  refine ⟨⟨F.take (size - 1), false, (a.expr m.env).2⟩, ?_, rfl, ?_, List.take_prefix _ _, ?_, ?_⟩
  · rw [BCUT_ASSERT_of_zero size a m hpass hzero, snprintf_assert size a m.bcut_error hpct,
      if_neg (by omega), ← hF]
    rfl
  · show F.take (size - 1) = F.take (min F.length (size - 1))
    rcases Nat.le_total F.length (size - 1) with h | h
    · rw [Nat.min_eq_left h, List.take_of_length_le h, List.take_of_length_le (le_refl _)]
    · rw [Nat.min_eq_right h]
  · intro h
    exact List.take_of_length_le (by omega)
  · show (F.take (size - 1)).length + 1 ≤ size
    have := List.length_take_le (size - 1) F
    omega

/-- Instance of C10 with the default buffer: the 130-character expression of
`assert_long` gives a formatted message of 145 characters, of which the first
127 are kept. -/
theorem BCUT_ASSERT_message_truncated_witness :
    ∃ m1, BCUT_ASSERT BCUT_BUFFER_SIZE_DEFAULT assert_long ⟨[], true, []⟩ = some m1 ∧
      m1.bcut_pass = false ∧
      m1.bcut_error
        = ("long_test: l7: ".toList ++ List.replicate 130 'x').take
            (min ("long_test: l7: ".toList ++ List.replicate 130 'x').length
              (BCUT_BUFFER_SIZE_DEFAULT - 1)) ∧
      m1.bcut_error <+: "long_test: l7: ".toList ++ List.replicate 130 'x' ∧
      (("long_test: l7: ".toList ++ List.replicate 130 'x').length < BCUT_BUFFER_SIZE_DEFAULT →
        m1.bcut_error = "long_test: l7: ".toList ++ List.replicate 130 'x') ∧
      m1.bcut_error.length + 1 ≤ BCUT_BUFFER_SIZE_DEFAULT :=
  BCUT_ASSERT_message_truncated BCUT_BUFFER_SIZE_DEFAULT assert_long ⟨[], true, []⟩
    ("long_test: l7: ".toList ++ List.replicate 130 'x') (by decide) (by decide) rfl
    (by decide) (by decide)

/-- C6, as stated, fails.  With the default buffer of 128 characters the failing
assertion `assert_long` (flag true on entry, expression false) leaves a message
of 127 characters that does not contain its 130-character expression text. -/
theorem BCUT_ASSERT_message_loses_text :
    (assert_long.expr []).1 = 0 ∧
    ∃ m1, BCUT_ASSERT BCUT_BUFFER_SIZE_DEFAULT assert_long ⟨[], true, []⟩ = some m1 ∧
      m1.bcut_error.length = 127 ∧ ¬ assert_long.text <:+: m1.bcut_error := by
  have hpct : '%' ∉ assert_long.text := by decide
  refine ⟨rfl, ⟨("long_test: l7: ".toList ++ List.replicate 130 'x').take 127, false,
    [List.replicate 130 'x']⟩, ?_, ?_, ?_⟩
  · rw [BCUT_ASSERT_of_zero _ _ _ rfl rfl, snprintf_assert _ _ _ hpct]
    rfl
  · simp [List.length_take]
  · intro h
    have h1 := h.length_le
    have h2 : assert_long.text.length = 130 := by simp [assert_long]
    have h3 := List.length_take_le 127 ("long_test: l7: ".toList ++ List.replicate 130 'x')
    simp only at h1
    omega

/-- C6, amended.  A failing assertion (flag true on entry, expression false)
whose expression text holds no `%` and whose formatted message `F`, the function
name, `": l"`, the decimal line number, `": "` and the expression text, is
shorter than the buffer: the message recorded is `F`, so it contains the test's
identifier and the exact expression text. -/
theorem BCUT_ASSERT_message_correct {σ : Type} (size : Nat) (a : Assertion σ)
    (m : Machine σ) (hpass : m.bcut_pass = true) (hzero : (a.expr m.env).1 = 0)
    (hpct : '%' ∉ a.text)
    (hfit : (a.func ++ ": l".toList ++ (Nat.repr a.line).toList ++ ": ".toList
      ++ a.text).length < size) :
    ∃ m1, BCUT_ASSERT size a m = some m1 ∧ m1.bcut_pass = false ∧
      m1.bcut_error
        = a.func ++ ": l".toList ++ (Nat.repr a.line).toList ++ ": ".toList ++ a.text ∧
      a.func <:+: m1.bcut_error ∧ a.text <:+: m1.bcut_error := by
  refine ⟨⟨a.func ++ ": l".toList ++ (Nat.repr a.line).toList ++ ": ".toList ++ a.text, false,
    (a.expr m.env).2⟩, ?_, rfl, rfl, ?_, ?_⟩
  · rw [BCUT_ASSERT_of_zero size a m hpass hzero, snprintf_assert size a m.bcut_error hpct,
      if_neg (by omega), List.take_of_length_le (by omega)]
    rfl
  · exact ⟨[], ": l".toList ++ (Nat.repr a.line).toList ++ ": ".toList ++ a.text, by simp⟩
  · exact ⟨a.func ++ ": l".toList ++ (Nat.repr a.line).toList ++ ": ".toList, [], by simp⟩

/-- Instance of amended C6: `BCUT_ASSERT(5 < 3)` at line 10 of `bad_test`. -/
theorem BCUT_ASSERT_message_correct_witness :
    ∃ m1, BCUT_ASSERT BCUT_BUFFER_SIZE_DEFAULT assert_5_lt_3 ⟨[], true, []⟩ = some m1 ∧
      m1.bcut_pass = false ∧
      m1.bcut_error = "bad_test".toList ++ ": l".toList ++ (Nat.repr 10).toList ++ ": ".toList
        ++ "5 < 3".toList ∧
      "bad_test".toList <:+: m1.bcut_error ∧ "5 < 3".toList <:+: m1.bcut_error :=
  BCUT_ASSERT_message_correct BCUT_BUFFER_SIZE_DEFAULT assert_5_lt_3 ⟨[], true, []⟩ rfl rfl
    (by decide) (by decide)

/-- An expression text is pasted into the format string: the `%%` of a string
literal in the expression reaches the buffer as a single `%`. -/
theorem BCUT_ASSERT_percent_collapses :
    BCUT_ASSERT BCUT_BUFFER_SIZE_DEFAULT assert_strcmp ⟨[], true, []⟩
      = some ⟨"percent_test: l12: strcmp(s, \"%\") == 0".toList, false, []⟩ := by
  decide

/-- An expression text is pasted into the format string: the `% d` of a
remainder is a conversion with no argument to read, and the call has no defined
result. -/
theorem BCUT_ASSERT_percent_undefined :
    BCUT_ASSERT BCUT_BUFFER_SIZE_DEFAULT assert_modulo ⟨[], true, []⟩ = none := by
  decide


/-! ## Properties of `bcut_suite_run` -/

/-- C1. Fail-fast.  In a suite of test units, each a sequence of `BCUT_ASSERT`
steps, where the units before `body` return one after the other with the pass
flag true and `body` then returns with the flag false, `bcut_suite_run` calls
the arguments at positions `0, ..., k - 1` (`k` the position of `body`, counted
from one), in that order and once each, and no other; the program state at the
end is the one `body` left, so no expression of a later unit is evaluated. -/
theorem bcut_suite_run_fail_fast {σ : Type} (size : Nat) (garbage name : List Char)
    (pre : List (List (Assertion σ))) (body : List (Assertion σ))
    (post : List (List (Assertion σ))) (env : σ) (m1 m2 : Machine σ)
    (hpre : passAll (pre.map (BCUT_TEST size)) ⟨garbage, true, env⟩ = some m1)
    (hbody : BCUT_TEST size body m1 = some m2) (hfail : m2.bcut_pass = false) :
    ∃ r, bcut_suite_run garbage name (pre ++ body :: post).length
        ((pre ++ body :: post).map (BCUT_TEST size)) env = some r ∧
      r.calls.map Prod.fst = List.range (pre.length + 1) ∧ r.env = m2.env := by
  obtain ⟨cs, h1, _, h3⟩ := bcut_suite_run_of_first_failure garbage name
    (pre.map (BCUT_TEST size)) (BCUT_TEST size body) (post.map (BCUT_TEST size)) env m1 m2
    hpre hbody hfail
  have hlen : (pre ++ body :: post).length
      = (pre.map (BCUT_TEST size) ++ BCUT_TEST size body :: post.map (BCUT_TEST size)).length := by
    simp
  rw [List.map_append, List.map_cons, hlen, h3]
  exact ⟨_, rfl, by simpa using h1, rfl⟩

/-- Instance of C1: a suite of two tests that would both fail.  Only the first
argument is called and the expression `1 == 2` of the second test is never
evaluated. -/
theorem bcut_suite_run_fail_fast_witness :
    ∃ r, bcut_suite_run "stale".toList "Scenario C".toList 2
        [BCUT_TEST BCUT_BUFFER_SIZE_DEFAULT [assert_5_lt_3],
          BCUT_TEST BCUT_BUFFER_SIZE_DEFAULT [assert_1_eq_2]] [] = some r ∧
      r.calls.map Prod.fst = [0] ∧ r.env = ["5 < 3".toList] :=
  bcut_suite_run_fail_fast BCUT_BUFFER_SIZE_DEFAULT "stale".toList "Scenario C".toList []
    [assert_5_lt_3] [[assert_1_eq_2]] [] ⟨"stale".toList, true, []⟩
    ⟨"bad_test: l10: 5 < 3".toList, false, ["5 < 3".toList]⟩ rfl (by decide) rfl

/-- C2. All-pass case.  When the test units of a suite return one after the
other with the pass flag true, `bcut_suite_run` called with their number calls
every argument, in the order given: the call at position `j` is the `j`-th of
the run and is entered with the machine the units before it left, and the run
ends with `pass` true and the buffer and program state that the last unit
left.  Its whole output is `Testing <name>: PASSED!` followed by a newline. -/
theorem bcut_suite_run_all_pass {σ : Type} (garbage name : List Char)
    (tests : List (bcut_test_fn σ)) (env : σ) (m1 : Machine σ)
    (h : passAll tests ⟨garbage, true, env⟩ = some m1) :
    ∃ r, bcut_suite_run garbage name tests.length tests env = some r ∧
      r.calls.map Prod.fst = List.range tests.length ∧
      (∀ j mj, j < tests.length → passAll (tests.take j) ⟨garbage, true, env⟩ = some mj →
        r.calls[j]? = some (j, mj)) ∧
      r.pass = true ∧ r.error_buffer = m1.bcut_error ∧ r.env = m1.env ∧
      r.stdout = ["Testing ".toList ++ name ++ ": ".toList, "PASSED!\n".toList] ∧
      r.output = "Testing ".toList ++ name ++ ": PASSED!\n".toList ∧
      "PASSED!\n".toList <:+ r.output := by
  obtain ⟨cs, h1, h2, h3⟩ := bcut_suite_run_of_passAll_entries garbage name tests env m1 h
  have hout : ("Testing ".toList ++ name ++ ": ".toList) ++ ("PASSED!\n".toList ++ [])
      = "Testing ".toList ++ name ++ ": PASSED!\n".toList := by
    simp
  refine ⟨_, h3, h1, h2, rfl, rfl, rfl, rfl, hout, ?_⟩
  show "PASSED!\n".toList <:+ ("Testing ".toList ++ name ++ ": ".toList) ++ ("PASSED!\n".toList ++ [])
  exact ⟨"Testing ".toList ++ name ++ ": ".toList, by simp⟩

/-- Instance of C2: the suite `Dummy test` with one test asserting `5 > 3`.
The test is called, with the buffer as it was and the flag true, and its
expression is evaluated. -/
theorem bcut_suite_run_all_pass_witness :
    ∃ r, bcut_suite_run "stale".toList "Dummy test".toList 1
        [BCUT_TEST BCUT_BUFFER_SIZE_DEFAULT [assert_5_gt_3]] [] = some r ∧
      r.calls.map Prod.fst = [0] ∧
      r.calls[0]? = some (0, ⟨"stale".toList, true, []⟩) ∧
      r.pass = true ∧ r.error_buffer = "stale".toList ∧ r.env = ["5 > 3".toList] ∧
      r.stdout = ["Testing Dummy test: ".toList, "PASSED!\n".toList] ∧
      r.output = "Testing Dummy test: PASSED!\n".toList ∧
      "PASSED!\n".toList <:+ r.output := by
  obtain ⟨r, h1, h2, h3, h4, h5, h6, h7, h8, h9⟩ :=
    bcut_suite_run_all_pass "stale".toList "Dummy test".toList
      [BCUT_TEST BCUT_BUFFER_SIZE_DEFAULT [assert_5_gt_3]] []
      ⟨"stale".toList, true, ["5 > 3".toList]⟩ (by decide)
  exact ⟨r, h1, h2, h3 0 ⟨"stale".toList, true, []⟩ (by decide) rfl, h4, h5, h6, h7, h8, h9⟩

/-- C3. Failure report.  In a suite where the test units before `T` return one
after the other with the pass flag true and `T` is a sequence of `BCUT_ASSERT`
steps whose first false expression is that of `a`, with `M` the message the
`snprintf` of `a` recorded: `bcut_suite_run` makes two `printf` calls, the
header and the report, and its whole output is `Testing <name>: ` followed by
a newline, a tab, `FAIL: `, `M` and a newline.  Nothing comes after it. -/
theorem bcut_suite_run_failure_report {σ : Type} (size : Nat) (garbage name : List Char)
    (pre : List (bcut_test_fn σ)) (p : List (Assertion σ)) (a : Assertion σ)
    (q : List (Assertion σ)) (post : List (bcut_test_fn σ)) (env : σ) (m1 : Machine σ)
    (M : List Char) (hpre : passAll pre ⟨garbage, true, env⟩ = some m1)
    (hp : allHold p m1.env = true) (ha : (a.expr (envAfter p m1.env)).1 = 0)
    (hM : snprintf m1.bcut_error size (assertFormat a)
      [Arg.str a.func, Arg.int (Int.ofNat a.line)] = some M) :
    ∃ r, bcut_suite_run garbage name (pre ++ BCUT_TEST size (p ++ a :: q) :: post).length
        (pre ++ BCUT_TEST size (p ++ a :: q) :: post) env = some r ∧
      r.stdout = ["Testing ".toList ++ name ++ ": ".toList,
        "\n\tFAIL: ".toList ++ M ++ "\n".toList] ∧
      r.output = "Testing ".toList ++ name ++ ": ".toList ++ "\n\tFAIL: ".toList ++ M
        ++ "\n".toList := by
  have hm1 : m1 = ⟨m1.bcut_error, true, m1.env⟩ := by
    have hpass := passAll_pass pre _ m1 hpre rfl
    cases m1; simp only at hpass; subst hpass; rfl
  have ht : BCUT_TEST size (p ++ a :: q) m1
      = some ⟨M, false, (a.expr (envAfter p m1.env)).2⟩ := by
    rw [hm1, BCUT_TEST_of_first_zero size p a q m1.bcut_error m1.env hp ha, hM]
    rfl
  obtain ⟨cs, _, _, h3⟩ := bcut_suite_run_of_first_failure garbage name pre
    (BCUT_TEST size (p ++ a :: q)) post env m1 _ hpre ht rfl
  refine ⟨_, h3, rfl, ?_⟩
  simp [Run.output]

/-- Instance of C3: the suite `X` with one test `bad_test` asserting `5 < 3`
at line 10. -/
theorem bcut_suite_run_failure_report_witness :
    ∃ r, bcut_suite_run "stale".toList "X".toList 1
        [BCUT_TEST BCUT_BUFFER_SIZE_DEFAULT [assert_5_lt_3]] [] = some r ∧
      r.stdout = ["Testing X: ".toList, "\n\tFAIL: bad_test: l10: 5 < 3\n".toList] ∧
      r.output = "Testing X: \n\tFAIL: bad_test: l10: 5 < 3\n".toList :=
  bcut_suite_run_failure_report BCUT_BUFFER_SIZE_DEFAULT "stale".toList "X".toList []
    [] assert_5_lt_3 [] [] [] ⟨"stale".toList, true, []⟩ "bad_test: l10: 5 < 3".toList
    rfl rfl rfl (by decide)


theorem suite_loop_entry_flag {σ : Type} (k i : Nat) (args : List (bcut_test_fn σ))
    (r r1 : Run σ) (hr : ∀ c ∈ r.calls, c.2.bcut_pass = true)
    (h : suite_loop k i args r = some r1) : ∀ c ∈ r1.calls, c.2.bcut_pass = true := by
  induction k generalizing i args r with
  | zero =>
    simp only [suite_loop, Option.some.injEq] at h
    rw [← h]; exact hr
  | succ k ih =>
    by_cases hp : r.pass = true
    · cases args with
      | nil => simp [suite_loop, hp] at h
      | cons t rest =>
        have hentry : ∀ c ∈ r.calls ++ [(i, (⟨r.error_buffer, true, r.env⟩ : Machine σ))],
            c.2.bcut_pass = true := by
          intro c hc
          rcases List.mem_append.mp hc with hc | hc
          · exact hr c hc
          · simp only [List.mem_singleton] at hc
            rw [hc]
        cases ht : t ⟨r.error_buffer, true, r.env⟩ with
        | none => simp [suite_loop, hp, ht] at h
        | some m =>
          by_cases hm : m.bcut_pass = true
          · rw [suite_loop_step_pass k i t rest r m hp ht hm] at h
            exact ih _ _ _ hentry h
          · have hm' : m.bcut_pass = false := by simpa using hm
            rw [suite_loop_step_fail k i t rest r m hp ht hm'] at h
            simp only [Option.some.injEq] at h
            rw [← h]; exact hentry
    · have hp' : r.pass = false := by simpa using hp
      rw [suite_loop_of_failed _ _ _ _ hp'] at h
      simp only [Option.some.injEq] at h
      rw [← h]; exact hr

/-- C8. Terminal states of a suite run.  For test callables that update the
machine in any way and return, `bcut_suite_run` returns after exactly two
`printf` calls: the header, and then either the success marker (the run ends
with `pass` true) or one failure report (the run ends with `pass` false).  The
two cases exclude each other, so a run never prints both, never neither, and
never a second report. -/
theorem bcut_suite_run_terminal_states {σ : Type} (garbage name : List Char)
    (tests : List (Machine σ → Machine σ)) (env : σ) :
    ∃ r, bcut_suite_run garbage name tests.length (tests.map (fun f m => some (f m))) env
        = some r ∧
      ((r.pass = true ∧
          r.stdout = ["Testing ".toList ++ name ++ ": ".toList, "PASSED!\n".toList]) ∨
        (r.pass = false ∧ ∃ buf,
          r.stdout = ["Testing ".toList ++ name ++ ": ".toList,
            "\n\tFAIL: ".toList ++ buf ++ "\n".toList])) ∧
      ¬ (r.stdout = ["Testing ".toList ++ name ++ ": ".toList, "PASSED!\n".toList] ∧
        ∃ buf, r.stdout = ["Testing ".toList ++ name ++ ": ".toList,
          "\n\tFAIL: ".toList ++ buf ++ "\n".toList]) := by
  have hexcl : ∀ out : List (List Char),
      ¬ (out = ["Testing ".toList ++ name ++ ": ".toList, "PASSED!\n".toList] ∧
        ∃ buf, out = ["Testing ".toList ++ name ++ ": ".toList,
          "\n\tFAIL: ".toList ++ buf ++ "\n".toList]) := by
    rintro out ⟨h1, buf, h2⟩
    rw [h1] at h2
    have h3 := (List.cons.inj (List.cons.inj h2).2).1
    have h4 : ('P' : Char) = '\n' := (List.cons.inj h3).1
    exact absurd h4 (by decide)
  have htotal : ∀ t ∈ tests.map (fun f (m : Machine σ) => some (f m)),
      ∀ m, ∃ m1, t m = some m1 := by
    intro t ht m
    obtain ⟨f, _, rfl⟩ := List.mem_map.mp ht
    exact ⟨f m, rfl⟩
  rcases passAll_or_first_failure _ htotal ⟨garbage, true, env⟩ with
    ⟨m1, h1⟩ | ⟨pre, t, post, m1, m2, hsplit, h1, h2, h3⟩
  · obtain ⟨cs, _, _, hrun⟩ := bcut_suite_run_of_passAll garbage name _ env m1 h1
    rw [List.length_map] at hrun
    exact ⟨_, hrun, Or.inl ⟨rfl, rfl⟩, hexcl _⟩
  · obtain ⟨cs, _, _, hrun⟩ :=
      bcut_suite_run_of_first_failure garbage name pre t post env m1 m2 h1 h2 h3
    rw [← hsplit, List.length_map] at hrun
    exact ⟨_, hrun, Or.inr ⟨rfl, m2.bcut_error, rfl⟩, hexcl _⟩

/-- C9. The runner upholds the precondition of a test unit.  Whatever the
callables and the count, every call that a returning `bcut_suite_run` made was
entered with the pass flag true; and with callables that update the machine in
any way and return, and the count equal to their number, the run returns and,
unless the suite is empty, makes a call. -/
theorem bcut_suite_run_enters_with_flag_true {σ : Type} (garbage name : List Char) (env : σ) :
    (∀ (n : Nat) (args : List (bcut_test_fn σ)) (r : Run σ),
        bcut_suite_run garbage name n args env = some r →
        ∀ c ∈ r.calls, c.2.bcut_pass = true) ∧
    (∀ tests : List (Machine σ → Machine σ),
        ∃ r, bcut_suite_run garbage name tests.length (tests.map (fun f m => some (f m))) env
          = some r ∧ (∀ c ∈ r.calls, c.2.bcut_pass = true) ∧ (tests ≠ [] → r.calls ≠ [])) := by
  have hany : ∀ (n : Nat) (args : List (bcut_test_fn σ)) (r : Run σ),
      bcut_suite_run garbage name n args env = some r →
      ∀ c ∈ r.calls, c.2.bcut_pass = true := by
    intro n args r h
    unfold bcut_suite_run at h
    rw [printf_header, printf_passed] at h
    dsimp only at h
    cases hloop : suite_loop n 0 args
        { error_buffer := garbage, pass := true, env := env,
          stdout := ["Testing ".toList ++ name ++ ": ".toList], calls := [] } with
    | none =>
      rw [hloop] at h
      exact absurd h (by simp)
    | some r0 =>
      have h0 := suite_loop_entry_flag n 0 args _ r0 (by simp) hloop
      rw [hloop] at h
      dsimp only at h
      by_cases hp : r0.pass = true
      · rw [if_pos hp] at h
        simp only [Option.some.injEq] at h
        rw [← h]; exact h0
      · rw [if_neg hp] at h
        simp only [Option.some.injEq] at h
        rw [← h]; exact h0
  refine ⟨hany, ?_⟩
  intro tests
  have htotal : ∀ t ∈ tests.map (fun f (m : Machine σ) => some (f m)),
      ∀ m, ∃ m1, t m = some m1 := by
    intro t ht m
    obtain ⟨f, _, rfl⟩ := List.mem_map.mp ht
    exact ⟨f m, rfl⟩
  have hne : ∀ (cs : List (Nat × Machine σ)) (k : Nat), cs.map Prod.fst = List.range k →
      tests.length ≤ k ∨ 0 < k → tests ≠ [] → cs ≠ [] := by
    intro cs k hcs hk htests hnil
    have hpos : 0 < k := by
      rcases hk with hk | hk
      · exact Nat.lt_of_lt_of_le (List.length_pos.mpr htests) hk
      · exact hk
    have hlen := congrArg List.length hcs
    rw [hnil] at hlen
    simp at hlen
    omega
  rcases passAll_or_first_failure _ htotal ⟨garbage, true, env⟩ with
    ⟨m1, h1⟩ | ⟨pre, t, post, m1, m2, hsplit, h1, h2, h3⟩
  · obtain ⟨cs, hcs, hflag, hrun⟩ := bcut_suite_run_of_passAll garbage name _ env m1 h1
    rw [List.length_map] at hrun hcs
    exact ⟨_, hrun, hflag, hne cs _ hcs (Or.inl (le_refl _))⟩
  · obtain ⟨cs, hcs, hflag, hrun⟩ :=
      bcut_suite_run_of_first_failure garbage name pre t post env m1 m2 h1 h2 h3
    rw [← hsplit, List.length_map] at hrun
    exact ⟨_, hrun, hflag, hne cs _ hcs (Or.inr (Nat.succ_pos _))⟩

/-- A callable that is no sequence of assertions: it clears the pass flag and
leaves the buffer alone. -/
theorem bcut_suite_run_flag_only_callable :
    ∃ r, bcut_suite_run "stale".toList "S".toList 2
        [fun m => some { m with bcut_pass := false },
          BCUT_TEST BCUT_BUFFER_SIZE_DEFAULT [assert_5_gt_3]] ([] : EvalLog) = some r ∧
      r.pass = false ∧ r.stdout = ["Testing S: ".toList, "\n\tFAIL: stale\n".toList] ∧
      r.calls.map Prod.fst = [0] :=
  ⟨_, rfl, rfl, rfl, rfl⟩

/-- C12. Empty suite.  Called with `n = 0`, whatever the variadic arguments,
`bcut_suite_run` makes no call (no argument is read), and its whole output is
`Testing <name>: PASSED!` followed by a newline. -/
theorem bcut_suite_run_empty {σ : Type} (garbage name : List Char)
    (args : List (bcut_test_fn σ)) (env : σ) :
    ∃ r, bcut_suite_run garbage name 0 args env = some r ∧ r.calls = [] ∧ r.env = env ∧
      r.stdout = ["Testing ".toList ++ name ++ ": ".toList, "PASSED!\n".toList] ∧
      r.output = "Testing ".toList ++ name ++ ": PASSED!\n".toList := by
  have hrun : bcut_suite_run garbage name 0 args env
      = some ⟨garbage, true, env,
          ["Testing ".toList ++ name ++ ": ".toList, "PASSED!\n".toList], []⟩ := rfl
  refine ⟨_, hrun, rfl, rfl, rfl, ?_⟩
  simp [Run.output]

/-- C13. Truthiness of the asserted value.  An assertion executed with the pass
flag true whose expression yields the integer `v`: when `v` is non-zero it
passes, flag true and buffer unchanged; when `v` is zero it fails, flag false
and the buffer holding what `snprintf` wrote (the call returns whenever the
expression text holds no `%`); and a returning call passed exactly when
`v ≠ 0` and failed exactly when `v = 0`.  The value is compared with zero, not
cut to its low byte: a non-zero multiple of 256 passes. -/
theorem BCUT_ASSERT_truthiness {σ : Type} (size : Nat) (a : Assertion σ) (m : Machine σ)
    (v : Int) (hpass : m.bcut_pass = true) (hv : (a.expr m.env).1 = v) :
    (v ≠ 0 → BCUT_ASSERT size a m = some ⟨m.bcut_error, true, (a.expr m.env).2⟩) ∧
    (v = 0 → BCUT_ASSERT size a m
        = (snprintf m.bcut_error size (assertFormat a)
            [Arg.str a.func, Arg.int (Int.ofNat a.line)]).map
          (fun msg => ⟨msg, false, (a.expr m.env).2⟩)) ∧
    ('%' ∉ a.text → ∃ m1, BCUT_ASSERT size a m = some m1) ∧
    (∀ m1, BCUT_ASSERT size a m = some m1 →
        ((m1.bcut_pass = true ∧ m1.bcut_error = m.bcut_error) ↔ v ≠ 0) ∧
        ((m1.bcut_pass = false ∧
            snprintf m.bcut_error size (assertFormat a)
              [Arg.str a.func, Arg.int (Int.ofNat a.line)] = some m1.bcut_error) ↔ v = 0)) ∧
    (v ≠ 0 → v % 256 = 0 →
        BCUT_ASSERT size a m = some ⟨m.bcut_error, true, (a.expr m.env).2⟩) := by
  subst hv
  have hnz : (a.expr m.env).1 ≠ 0 →
      BCUT_ASSERT size a m = some ⟨m.bcut_error, true, (a.expr m.env).2⟩ :=
    BCUT_ASSERT_of_nonzero size a m hpass
  have hz := BCUT_ASSERT_of_zero size a m hpass
  refine ⟨hnz, hz, ?_, ?_, fun h _ => hnz h⟩
  · intro hpct
    by_cases h : (a.expr m.env).1 = 0
    · rw [hz h, snprintf_assert size a m.bcut_error hpct]
      exact ⟨_, rfl⟩
    · exact ⟨_, hnz h⟩
  · intro m1 hm1
    by_cases h : (a.expr m.env).1 = 0
    · rw [hz h] at hm1
      cases hmsg : snprintf m.bcut_error size (assertFormat a)
          [Arg.str a.func, Arg.int (Int.ofNat a.line)] with
      | none =>
        rw [hmsg] at hm1
        simp at hm1
      | some msg =>
        rw [hmsg] at hm1
        simp only [Option.map_some', Option.some.injEq] at hm1
        subst hm1
        simp [h]
    · rw [hnz h] at hm1
      simp only [Option.some.injEq] at hm1
      subst hm1
      simp [h]

/-- Instance of C13: `BCUT_ASSERT(flags & 0x100)` with the value 256, whose low
eight bits are zero, passes. -/
theorem BCUT_ASSERT_truthiness_witness :
    (256 : Int) % 256 = 0 ∧
    BCUT_ASSERT BCUT_BUFFER_SIZE_DEFAULT assert_256 ⟨"stale".toList, true, []⟩
      = some ⟨"stale".toList, true, ["flags & 0x100".toList]⟩ :=
  ⟨by decide,
    (BCUT_ASSERT_truthiness BCUT_BUFFER_SIZE_DEFAULT assert_256 ⟨"stale".toList, true, []⟩ 256
      rfl rfl).2.2.2.2 (by decide) (by decide)⟩

/-! ## What the report prints -/

theorem snprintf_buffer_free (buf buf2 : List Char) (size : Nat) (fmt : List Char)
    (args : List Arg) (hsize : 0 < size) :
    snprintf buf size fmt args = snprintf buf2 size fmt args := by
  have h : size ≠ 0 := by omega
  simp [snprintf, h]

theorem BCUT_TEST_defined {σ : Type} (size : Nat) (body : List (Assertion σ))
    (hpct : ∀ a ∈ body, '%' ∉ a.text) (m : Machine σ) :
    ∃ m1, BCUT_TEST size body m = some m1 := by
  induction body generalizing m with
  | nil => exact ⟨m, rfl⟩
  | cons a rest ih =>
    have hrest : ∀ b ∈ rest, '%' ∉ b.text := fun b hb => hpct b (List.mem_cons_of_mem _ hb)
    have hstep : ∃ m2, BCUT_ASSERT size a m = some m2 := by
      by_cases hp : m.bcut_pass = true
      · by_cases hv : (a.expr m.env).1 = 0
        · rw [BCUT_ASSERT_of_zero size a m hp hv,
            snprintf_assert size a m.bcut_error (hpct a (by simp))]
          exact ⟨_, rfl⟩
        · exact ⟨_, BCUT_ASSERT_of_nonzero size a m hp hv⟩
      · exact ⟨m, BCUT_ASSERT_of_failed size a m (by simpa using hp)⟩
    obtain ⟨m2, h2⟩ := hstep
    obtain ⟨m3, h3⟩ := ih hrest m2
    exact ⟨m3, by simp [BCUT_TEST, h2, h3]⟩

theorem BCUT_TEST_allHold_of_pass {σ : Type} (size : Nat) (body : List (Assertion σ))
    (buf : List Char) (s : σ) (m : Machine σ)
    (h : BCUT_TEST size body ⟨buf, true, s⟩ = some m) (hm : m.bcut_pass = true) :
    allHold body s = true := by
  cases hall : allHold body s with
  | true => rfl
  | false =>
    obtain ⟨pre, a, post, h1, h2, h3⟩ := exists_first_zero body s hall
    rw [h1, BCUT_TEST_of_first_zero size pre a post buf s h2 h3] at h
    cases hmsg : snprintf buf size (assertFormat a)
        [Arg.str a.func, Arg.int (Int.ofNat a.line)] with
    | none =>
      rw [hmsg] at h
      simp at h
    | some msg =>
      rw [hmsg] at h
      simp only [Option.map_some', Option.some.injEq] at h
      rw [← h] at hm
      simp at hm

theorem passAll_BCUT_TEST_buffer {σ : Type} (size : Nat) (pre : List (List (Assertion σ)))
    (g : List Char) (s : σ) (m1 : Machine σ)
    (h : passAll (pre.map (BCUT_TEST size)) ⟨g, true, s⟩ = some m1) :
    ∀ g2, passAll (pre.map (BCUT_TEST size)) ⟨g2, true, s⟩ = some ⟨g2, true, m1.env⟩ := by
  induction pre generalizing s with
  | nil =>
    intro g2
    simp only [List.map_nil, passAll, Option.some.injEq] at h
    rw [← h]; rfl
  | cons body rest ih =>
    intro g2
    simp only [List.map_cons, passAll] at h ⊢
    cases ht : BCUT_TEST size body ⟨g, true, s⟩ with
    | none =>
      rw [ht] at h
      simp at h
    | some m2 =>
      rw [ht] at h
      by_cases hp : m2.bcut_pass = true
      · have hall := BCUT_TEST_allHold_of_pass size body g s m2 ht hp
        rw [BCUT_TEST_of_allHold size body g s hall] at ht
        simp only [Option.some.injEq] at ht
        rw [← ht] at h
        simp only [if_true] at h
        rw [BCUT_TEST_of_allHold size body g2 s hall]
        simp only [if_true]
        exact ih _ h g2
      · simp [hp] at h

theorem passAll_map_cases {σ α : Type} (f : α → bcut_test_fn σ) (xs : List α)
    (m : Machine σ) :
    (∃ m1, passAll (xs.map f) m = some m1) ∨
    (∃ pre x post m1 m2, xs = pre ++ x :: post ∧ passAll (pre.map f) m = some m1 ∧
        f x m1 = some m2 ∧ m2.bcut_pass = false) ∨
    (∃ pre x post m1, xs = pre ++ x :: post ∧ passAll (pre.map f) m = some m1 ∧
        f x m1 = none) := by
  induction xs generalizing m with
  | nil => exact Or.inl ⟨m, rfl⟩
  | cons x rest ih =>
    cases ht : f x m with
    | none => exact Or.inr (Or.inr ⟨[], x, rest, m, rfl, rfl, ht⟩)
    | some m2 =>
      by_cases hp : m2.bcut_pass = true
      · rcases ih m2 with ⟨m1, h1⟩ | ⟨pre, y, post, m1, m3, h1, h2, h3, h4⟩ |
          ⟨pre, y, post, m1, h1, h2, h3⟩
        · exact Or.inl ⟨m1, by simp [passAll, ht, hp, h1]⟩
        · exact Or.inr (Or.inl ⟨x :: pre, y, post, m1, m3, by simp [h1],
            by simp [passAll, ht, hp, h2], h3, h4⟩)
        · exact Or.inr (Or.inr ⟨x :: pre, y, post, m1, by simp [h1],
            by simp [passAll, ht, hp, h2], h3⟩)
      · exact Or.inr (Or.inl ⟨[], x, rest, m, m2, rfl, rfl, ht, by simpa using hp⟩)

theorem bcut_suite_run_of_undefined {σ : Type} (garbage name : List Char)
    (pre : List (bcut_test_fn σ)) (t : bcut_test_fn σ) (post : List (bcut_test_fn σ)) (env : σ)
    (m1 : Machine σ) (hpre : passAll pre ⟨garbage, true, env⟩ = some m1) (ht : t m1 = none) :
    bcut_suite_run garbage name (pre ++ t :: post).length (pre ++ t :: post) env = none := by
  obtain ⟨cs, _, _, h3⟩ := suite_loop_passAll pre (post.length + 1) 0 (t :: post)
    { error_buffer := garbage, pass := true, env := env,
      stdout := ["Testing ".toList ++ name ++ ": ".toList], calls := [] } m1 rfl hpre
  have hm1 : (⟨m1.bcut_error, true, m1.env⟩ : Machine σ) = m1 := by
    have hp := passAll_pass pre _ m1 hpre rfl
    cases m1; simp only at hp; subst hp; rfl
  have hlen : (pre ++ t :: post).length = pre.length + (post.length + 1) := by simp
  simp only [bcut_suite_run, printf_header, hlen, h3]
  simp [suite_loop, hm1, ht]

/-- C11. The error buffer is never printed before it is written.  The array
`error_buffer` starts with whatever it happens to hold (`garbage`).  In a build
with a buffer of at least one character and a suite of test units that are
sequences of `BCUT_ASSERT` steps, a returning run either ends with `pass` true
and never prints the buffer, or ends with `pass` false after one report, and
then the text printed is the message `M` that the `snprintf` of the first false
assertion `a` of the unit that has just returned wrote, the same whatever the
buffer held before.  So the output of the run does not depend on `garbage`.
The run returns whenever no expression text holds a `%`. -/
theorem bcut_suite_run_prints_written_buffer {σ : Type} (size : Nat)
    (garbage name : List Char) (tests : List (List (Assertion σ))) (env : σ)
    (hsize : 0 < size) :
    (∀ r, bcut_suite_run garbage name tests.length (tests.map (BCUT_TEST size)) env = some r →
      ((r.pass = true ∧
          r.stdout = ["Testing ".toList ++ name ++ ": ".toList, "PASSED!\n".toList]) ∨
        (r.pass = false ∧ ∃ pre p a q post m1 M,
          tests = pre ++ (p ++ a :: q) :: post ∧
          passAll (pre.map (BCUT_TEST size)) ⟨garbage, true, env⟩ = some m1 ∧
          allHold p m1.env = true ∧ (a.expr (envAfter p m1.env)).1 = 0 ∧
          (∀ buf, snprintf buf size (assertFormat a)
            [Arg.str a.func, Arg.int (Int.ofNat a.line)] = some M) ∧
          r.error_buffer = M ∧
          r.stdout = ["Testing ".toList ++ name ++ ": ".toList,
            "\n\tFAIL: ".toList ++ M ++ "\n".toList])) ∧
      ∀ garbage2, ∃ r2,
        bcut_suite_run garbage2 name tests.length (tests.map (BCUT_TEST size)) env = some r2 ∧
        r2.stdout = r.stdout) ∧
    ((∀ body ∈ tests, ∀ a ∈ body, '%' ∉ a.text) →
      ∃ r, bcut_suite_run garbage name tests.length (tests.map (BCUT_TEST size)) env
        = some r) := by
  constructor
  · intro r hrun
    rcases passAll_map_cases (BCUT_TEST size) tests ⟨garbage, true, env⟩ with
      ⟨m1, h1⟩ | ⟨pre, body, post, m1, m2, hsplit, h1, h2, h3⟩ |
      ⟨pre, body, post, m1, hsplit, h1, h2⟩
    · obtain ⟨cs, _, _, hr⟩ := bcut_suite_run_of_passAll garbage name _ env m1 h1
      rw [List.length_map, hrun] at hr
      simp only [Option.some.injEq] at hr
      refine ⟨Or.inl ⟨by rw [hr], by rw [hr]⟩, ?_⟩
      intro garbage2
      obtain ⟨cs2, _, _, hr2⟩ := bcut_suite_run_of_passAll garbage2 name _ env _
        (passAll_BCUT_TEST_buffer size tests garbage env m1 h1 garbage2)
      rw [List.length_map] at hr2
      exact ⟨_, hr2, by rw [hr]⟩
    · have hm1 := passAll_BCUT_TEST_buffer size pre garbage env m1 h1 garbage
      rw [h1] at hm1
      simp only [Option.some.injEq] at hm1
      have hall : allHold body m1.env = false := by
        cases hall : allHold body m1.env with
        | false => rfl
        | true =>
          rw [hm1, BCUT_TEST_of_allHold size body garbage m1.env hall] at h2
          simp only [Option.some.injEq] at h2
          rw [← h2] at h3
          simp at h3
      obtain ⟨p, a, q, hbody, hp, ha⟩ := exists_first_zero body m1.env hall
      have h2g : ∀ g, BCUT_TEST size body ⟨g, true, m1.env⟩
          = (snprintf garbage size (assertFormat a)
              [Arg.str a.func, Arg.int (Int.ofNat a.line)]).map
            (fun msg => ⟨msg, false, (a.expr (envAfter p m1.env)).2⟩) := by
        intro g
        rw [hbody, BCUT_TEST_of_first_zero size p a q g m1.env hp ha,
          snprintf_buffer_free g garbage size _ _ hsize]
      cases hmsg : snprintf garbage size (assertFormat a)
          [Arg.str a.func, Arg.int (Int.ofNat a.line)] with
      | none =>
        rw [hm1, h2g garbage, hmsg] at h2
        simp at h2
      | some M =>
        have hm2 : m2 = ⟨M, false, (a.expr (envAfter p m1.env)).2⟩ := by
          rw [hm1, h2g garbage, hmsg] at h2
          simp only [Option.map_some', Option.some.injEq] at h2
          exact h2.symm
        have hmap : tests.map (BCUT_TEST size)
            = pre.map (BCUT_TEST size) ++ BCUT_TEST size body :: post.map (BCUT_TEST size) := by
          rw [hsplit, List.map_append, List.map_cons]
        obtain ⟨cs, _, _, hr⟩ := bcut_suite_run_of_first_failure garbage name
          (pre.map (BCUT_TEST size)) (BCUT_TEST size body) (post.map (BCUT_TEST size)) env
          m1 m2 h1 (by rw [hm1, h2g garbage, hmsg, hm2]; rfl) h3
        rw [← hmap, List.length_map, hrun] at hr
        simp only [Option.some.injEq] at hr
        refine ⟨Or.inr ⟨by rw [hr], pre, p, a, q, post, m1, M, by rw [hsplit, hbody], h1, hp, ha,
          ?_, by rw [hr, hm2], by rw [hr, hm2]⟩, ?_⟩
        · intro buf
          rw [snprintf_buffer_free buf garbage size _ _ hsize, hmsg]
        · intro garbage2
          obtain ⟨cs2, _, _, hr2⟩ := bcut_suite_run_of_first_failure garbage2 name
            (pre.map (BCUT_TEST size)) (BCUT_TEST size body) (post.map (BCUT_TEST size)) env
            ⟨garbage2, true, m1.env⟩ m2
            (passAll_BCUT_TEST_buffer size pre garbage env m1 h1 garbage2)
            (by rw [h2g garbage2, hmsg, hm2]; rfl) h3
          rw [← hmap, List.length_map] at hr2
          exact ⟨_, hr2, by rw [hr]⟩
    · have hmap : tests.map (BCUT_TEST size)
          = pre.map (BCUT_TEST size) ++ BCUT_TEST size body :: post.map (BCUT_TEST size) := by
        rw [hsplit, List.map_append, List.map_cons]
      have hnone := bcut_suite_run_of_undefined garbage name (pre.map (BCUT_TEST size))
        (BCUT_TEST size body) (post.map (BCUT_TEST size)) env m1 h1 h2
      rw [← hmap, List.length_map, hrun] at hnone
      simp at hnone
  · intro hpct
    have htotal : ∀ t ∈ tests.map (BCUT_TEST size), ∀ m, ∃ m1, t m = some m1 := by
      intro t ht m
      obtain ⟨body, hbody, rfl⟩ := List.mem_map.mp ht
      exact BCUT_TEST_defined size body (hpct body hbody) m
    rcases passAll_or_first_failure _ htotal ⟨garbage, true, env⟩ with
      ⟨m1, h1⟩ | ⟨pre, t, post, m1, m2, hsplit, h1, h2, h3⟩
    · obtain ⟨cs, _, _, hr⟩ := bcut_suite_run_of_passAll garbage name _ env m1 h1
      rw [List.length_map] at hr
      exact ⟨_, hr⟩
    · obtain ⟨cs, _, _, hr⟩ :=
        bcut_suite_run_of_first_failure garbage name pre t post env m1 m2 h1 h2 h3
      rw [← hsplit, List.length_map] at hr
      exact ⟨_, hr⟩

/-- Instance of C11 with the default buffer: a passing test followed by
`bad_test`.  Whatever the array held at the start, the report prints the
message of `BCUT_ASSERT(5 < 3)` and nothing of the old content. -/
theorem bcut_suite_run_prints_written_buffer_witness :
    0 < BCUT_BUFFER_SIZE_DEFAULT ∧
    ∀ garbage2, ∃ r2,
      bcut_suite_run garbage2 "S".toList 2
          [BCUT_TEST BCUT_BUFFER_SIZE_DEFAULT [assert_5_gt_3],
            BCUT_TEST BCUT_BUFFER_SIZE_DEFAULT [assert_5_lt_3]] ([] : EvalLog) = some r2 ∧
        r2.stdout = ["Testing S: ".toList, "\n\tFAIL: bad_test: l10: 5 < 3\n".toList] :=
  ⟨by decide,
    ((bcut_suite_run_prints_written_buffer BCUT_BUFFER_SIZE_DEFAULT "stale".toList "S".toList
      [[assert_5_gt_3], [assert_5_lt_3]] [] (by decide)).1
      ⟨"bad_test: l10: 5 < 3".toList, false, ["5 > 3".toList, "5 < 3".toList],
        ["Testing S: ".toList, "\n\tFAIL: bad_test: l10: 5 < 3\n".toList],
        [(0, ⟨"stale".toList, true, []⟩), (1, ⟨"stale".toList, true, ["5 > 3".toList]⟩)]⟩
      (by decide)).2⟩

end BCUT

